import Mathlib

/-!
Shallow embedding of the fermentation status computation of `src/server.js`
(functions `locationMultiplier` and `calculateFermentStatus`).

Modelling conventions:
* Timestamps are exact rationals, measured in milliseconds (the value of
  `Date.prototype.getTime`); the JS code divides millisecond differences by
  `36e5` to obtain hours.
* A `last_fed_at` value that fails to parse into a valid instant
  (`isNaN(lastFed.getTime())`) is modelled as `none`; a parseable one as
  `some t`.
* Real arithmetic is modelled exactly over `ℚ`.  A ratio that is not a
  finite number (JS `Infinity`/`NaN`, which arises exactly when the divisor
  `base_feed_interval_hours` is zero) is modelled as `none`.
* `moveEvents.slice().sort((a, b) => ta - tb)` is the stable ascending sort
  by `created_at`; it is modelled by `List.insertionSort`, which is stable.
* The JS truthiness test `if (ev.new_storage_location)` is false for both
  `null`/`undefined` (modelled `none`) and the empty string.
-/

/-- A row of the `ferments` table, restricted to the fields
`calculateFermentStatus` reads. -/
structure Ferment where
  base_feed_interval_hours : ℚ
  last_fed_at : Option ℚ
  storage_location : String
deriving DecidableEq, Repr

/-- A `ferment_events` row of kind `move`, restricted to the fields the
computation reads.  `created_at` is the event's timestamp (`occurredAt`);
`new_storage_location` is the location moved to, possibly `null`. -/
structure MoveEvent where
  created_at : ℚ
  new_storage_location : Option String
deriving DecidableEq, Repr

/-- The record returned by `calculateFermentStatus`.  `ratio = none` models a
non-finite (Infinity/NaN) JS number. -/
structure StatusResult where
  stress : ℚ
  ratio : Option ℚ
  label : String
deriving DecidableEq, Repr

/-- `locationMultiplier` of `src/server.js` (lines 17–27): relative
fermentation speed of a storage location. -/
def locationMultiplier : String → ℚ
  | "counter" => 1
  | "fridge" => 1 / 3
  | _ => 1

/-- The mutable loop state of `calculateFermentStatus`:
`cursor`, `currentLocation` and `stressUnits` (lines 39–41). -/
structure AccState where
  cursor : ℚ
  currentLocation : String
  stressUnits : ℚ
deriving DecidableEq, Repr

/-- One iteration of the `for (const ev of events)` loop of
`calculateFermentStatus` (lines 50–64). -/
def processEvent (s : AccState) (ev : MoveEvent) : AccState :=
  let t := ev.created_at
  if t ≤ s.cursor then s
  else
    let hours := (t - s.cursor) / 3600000
    let stress' :=
      if 0 < hours then s.stressUnits + hours * locationMultiplier s.currentLocation
      else s.stressUnits
    let loc' :=
      match ev.new_storage_location with
      | some l => if l = "" then s.currentLocation else l
      | none => s.currentLocation
    ⟨t, loc', stress'⟩

/-- The event comparator of lines 45–48: ascending by `created_at`. -/
def eventLE (a b : MoveEvent) : Prop := a.created_at ≤ b.created_at

instance : DecidableRel eventLE :=
  fun a b => inferInstanceAs (Decidable (a.created_at ≤ b.created_at))

/-- The ratio→label classification of lines 74–83: `none` (non-finite)
is `unknown`, then half-open thresholds at `0.7` and `1.0`. -/
def classifyRatio : Option ℚ → String
  | none => "unknown"
  | some r => if r < 7/10 then "happy" else if r < 1 then "due_soon" else "needs_feed"

/-- `calculateFermentStatus` of `src/server.js` (lines 30–86). -/
def calculateFermentStatus (ferment : Ferment) (moveEvents : List MoveEvent)
    (now : ℚ) : StatusResult :=
  let baseInterval := ferment.base_feed_interval_hours
  match ferment.last_fed_at with
  | none => ⟨0, some 0, "unknown"⟩
  | some lastFed =>
    let events := List.insertionSort eventLE moveEvents
    let s := events.foldl processEvent ⟨lastFed, ferment.storage_location, 0⟩
    let hoursFinal := (now - s.cursor) / 3600000
    let stressUnits :=
      if 0 < hoursFinal then s.stressUnits + hoursFinal * locationMultiplier s.currentLocation
      else s.stressUnits
    let ratio : Option ℚ := if baseInterval = 0 then none else some (stressUnits / baseInterval)
    ⟨stressUnits, ratio, classifyRatio ratio⟩

/-- Elapsed hours between two millisecond timestamps, as used throughout the
spec (`hoursBetween(lastFedAt, now)`). -/
def hoursBetween (a b : ℚ) : ℚ := (b - a) / 3600000

/-! ### Basic facts about the embedded definitions -/

theorem locationMultiplier_pos (loc : String) : 0 < locationMultiplier loc := by
  unfold locationMultiplier
  split <;> norm_num

theorem processEvent_skip {s : AccState} {ev : MoveEvent}
    (h : ev.created_at ≤ s.cursor) : processEvent s ev = s := by
  unfold processEvent
  simp [h]

theorem processEvent_step {s : AccState} {ev : MoveEvent}
    (h : s.cursor < ev.created_at) :
    processEvent s ev =
      ⟨ev.created_at,
        match ev.new_storage_location with
        | some l => if l = "" then s.currentLocation else l
        | none => s.currentLocation,
        s.stressUnits +
          (ev.created_at - s.cursor) / 3600000 * locationMultiplier s.currentLocation⟩ := by
  have h1 : ¬ ev.created_at ≤ s.cursor := not_le.mpr h
  have h2 : 0 < (ev.created_at - s.cursor) / 3600000 :=
    div_pos (by linarith) (by norm_num)
  unfold processEvent
  simp [h1, h2]

theorem processEvent_cursor_le (s : AccState) (ev : MoveEvent) :
    s.cursor ≤ (processEvent s ev).cursor := by
  rcases le_or_lt ev.created_at s.cursor with h | h
  · rw [processEvent_skip h]
  · rw [processEvent_step h]
    exact le_of_lt h

theorem processEvent_stress_le (s : AccState) (ev : MoveEvent) :
    s.stressUnits ≤ (processEvent s ev).stressUnits := by
  rcases le_or_lt ev.created_at s.cursor with h | h
  · rw [processEvent_skip h]
  · rw [processEvent_step h]
    have hm := locationMultiplier_pos s.currentLocation
    have hd : 0 < (ev.created_at - s.cursor) / 3600000 :=
      div_pos (by linarith) (by norm_num)
    have := mul_pos hd hm
    show s.stressUnits ≤ s.stressUnits + _
    linarith

theorem foldl_cursor_le (l : List MoveEvent) (s : AccState) :
    s.cursor ≤ (l.foldl processEvent s).cursor := by
  induction l generalizing s with
  | nil => exact le_refl _
  | cons e l ih =>
    rw [List.foldl_cons]
    exact le_trans (processEvent_cursor_le s e) (ih _)

theorem foldl_stress_le (l : List MoveEvent) (s : AccState) :
    s.stressUnits ≤ (l.foldl processEvent s).stressUnits := by
  induction l generalizing s with
  | nil => exact le_refl _
  | cons e l ih =>
    rw [List.foldl_cons]
    exact le_trans (processEvent_stress_le s e) (ih _)

/-- Inserting an event dated at or before the cursor anywhere into the list
is invisible to the fold: by the time the fold reaches it, the cursor has
only grown, so the event is skipped. -/
theorem foldl_orderedInsert_skip (l : List MoveEvent) (x : MoveEvent) (s : AccState)
    (h : x.created_at ≤ s.cursor) :
    (List.orderedInsert eventLE x l).foldl processEvent s = l.foldl processEvent s := by
  induction l generalizing s with
  | nil =>
    simp [List.orderedInsert, processEvent_skip h]
  | cons y l ih =>
    by_cases hxy : eventLE x y
    · rw [List.orderedInsert, if_pos hxy, List.foldl_cons, processEvent_skip h]
    · rw [List.orderedInsert, if_neg hxy, List.foldl_cons, List.foldl_cons]
      exact ih _ (le_trans h (processEvent_cursor_le s y))

/-- Prepending events dated at or before the initial cursor to the unsorted
input does not change the fold over the sorted list. -/
theorem foldl_sort_append_stale (pre evs : List MoveEvent) (s : AccState)
    (hpre : ∀ e ∈ pre, e.created_at ≤ s.cursor) :
    (List.insertionSort eventLE (pre ++ evs)).foldl processEvent s =
      (List.insertionSort eventLE evs).foldl processEvent s := by
  induction pre with
  | nil => rfl
  | cons x pre ih =>
    rw [List.cons_append, List.insertionSort,
      foldl_orderedInsert_skip _ _ _ (hpre x (List.mem_cons_self x pre))]
    exact ih fun e he => hpre e (List.mem_cons_of_mem x he)

/-! ### Unfolding lemmas for `calculateFermentStatus` -/

theorem calculateFermentStatus_none {f : Ferment} (evs : List MoveEvent) (now : ℚ)
    (h : f.last_fed_at = none) :
    calculateFermentStatus f evs now = ⟨0, some 0, "unknown"⟩ := by
  unfold calculateFermentStatus
  rw [h]

theorem calculateFermentStatus_stress_some {f : Ferment} {t0 : ℚ} (evs : List MoveEvent)
    (now : ℚ) (h : f.last_fed_at = some t0) :
    (calculateFermentStatus f evs now).stress =
      (if 0 < (now - ((List.insertionSort eventLE evs).foldl processEvent
            ⟨t0, f.storage_location, 0⟩).cursor) / 3600000
       then ((List.insertionSort eventLE evs).foldl processEvent
              ⟨t0, f.storage_location, 0⟩).stressUnits +
            (now - ((List.insertionSort eventLE evs).foldl processEvent
              ⟨t0, f.storage_location, 0⟩).cursor) / 3600000 *
              locationMultiplier ((List.insertionSort eventLE evs).foldl processEvent
                ⟨t0, f.storage_location, 0⟩).currentLocation
       else ((List.insertionSort eventLE evs).foldl processEvent
              ⟨t0, f.storage_location, 0⟩).stressUnits) := by
  unfold calculateFermentStatus
  rw [h]

theorem calculateFermentStatus_ratio_some {f : Ferment} {t0 : ℚ} (evs : List MoveEvent)
    (now : ℚ) (h : f.last_fed_at = some t0) :
    (calculateFermentStatus f evs now).ratio =
      (if f.base_feed_interval_hours = 0 then none
       else some ((calculateFermentStatus f evs now).stress / f.base_feed_interval_hours)) := by
  unfold calculateFermentStatus
  rw [h]

theorem calculateFermentStatus_label_some {f : Ferment} {t0 : ℚ} (evs : List MoveEvent)
    (now : ℚ) (h : f.last_fed_at = some t0) :
    (calculateFermentStatus f evs now).label =
      classifyRatio (calculateFermentStatus f evs now).ratio := by
  unfold calculateFermentStatus
  rw [h]

theorem processEvent_step_none {s : AccState} {ev : MoveEvent}
    (h : s.cursor < ev.created_at) (hn : ev.new_storage_location = none) :
    processEvent s ev =
      ⟨ev.created_at, s.currentLocation,
        s.stressUnits +
          (ev.created_at - s.cursor) / 3600000 * locationMultiplier s.currentLocation⟩ := by
  rw [processEvent_step h, hn]

/-- Fold invariant for event lists that never change the location (all
`new_storage_location = none`): the location is preserved, the cursor only
advances (to one of the event timestamps, if at all), and the accumulated
stress is exactly the cursor displacement at the initial location's speed. -/
theorem foldl_null_events (l : List MoveEvent) (s : AccState)
    (hnull : ∀ e ∈ l, e.new_storage_location = none) :
    (l.foldl processEvent s).currentLocation = s.currentLocation ∧
    s.cursor ≤ (l.foldl processEvent s).cursor ∧
    ((l.foldl processEvent s).cursor = s.cursor ∨
      ∃ e ∈ l, (l.foldl processEvent s).cursor = e.created_at) ∧
    (l.foldl processEvent s).stressUnits =
      s.stressUnits + ((l.foldl processEvent s).cursor - s.cursor) / 3600000 *
        locationMultiplier s.currentLocation := by
  induction l generalizing s with
  | nil => simp
  | cons e l ih =>
    rw [List.foldl_cons]
    rcases le_or_lt e.created_at s.cursor with h | h
    · rw [processEvent_skip h]
      obtain ⟨h1, h2, h3, h4⟩ := ih s fun x hx => hnull x (List.mem_cons_of_mem e hx)
      refine ⟨h1, h2, ?_, h4⟩
      rcases h3 with h3 | ⟨x, hx, hx2⟩
      · exact Or.inl h3
      · exact Or.inr ⟨x, List.mem_cons_of_mem e hx, hx2⟩
    · rw [processEvent_step_none h (hnull e (List.mem_cons_self e l))]
      obtain ⟨h1, h2, h3, h4⟩ :=
        ih ⟨e.created_at, s.currentLocation,
          s.stressUnits + (e.created_at - s.cursor) / 3600000 *
            locationMultiplier s.currentLocation⟩
          fun x hx => hnull x (List.mem_cons_of_mem e hx)
      dsimp only at h1 h2 h3 h4
      refine ⟨h1, le_trans (le_of_lt h) h2, ?_, ?_⟩
      · rcases h3 with h3 | ⟨x, hx, hx2⟩
        · exact Or.inr ⟨e, List.mem_cons_self e l, h3⟩
        · exact Or.inr ⟨x, List.mem_cons_of_mem e hx, hx2⟩
      · rw [h4]
        ring

/-- The returned stress is non-negative, whatever the inputs. -/
theorem stress_nonneg_aux (f : Ferment) (evs : List MoveEvent) (now : ℚ) :
    0 ≤ (calculateFermentStatus f evs now).stress := by
  cases hL : f.last_fed_at with
  | none =>
    rw [calculateFermentStatus_none evs now hL]
  | some t0 =>
    rw [calculateFermentStatus_stress_some evs now hL]
    set S := (List.insertionSort eventLE evs).foldl processEvent
      ⟨t0, f.storage_location, 0⟩ with hS
    have h0 : (0 : ℚ) ≤ S.stressUnits := by
      have h := foldl_stress_le (List.insertionSort eventLE evs)
        ⟨t0, f.storage_location, 0⟩
      rw [← hS] at h
      exact h
    split_ifs with hpos
    · have hm := locationMultiplier_pos S.currentLocation
      nlinarith
    · exact h0

/-! ### Claim theorems -/

/-- C5: whenever `lastFedAt` fails to parse into a valid instant,
`computeStatus` short-circuits and returns exactly
`{stress: 0, ratio: 0, label: "unknown"}`, for every event list and
reference time, with no error raised. -/
theorem C5_unknown_on_bad_input (f : Ferment) (evs : List MoveEvent) (now : ℚ)
    (h : f.last_fed_at = none) :
    calculateFermentStatus f evs now = ⟨0, some 0, "unknown"⟩ :=
  calculateFermentStatus_none evs now h

theorem C5_unknown_on_bad_input_witness :
    calculateFermentStatus ⟨16, none, "counter"⟩ [⟨5, some "fridge"⟩] 1000 =
      ⟨0, some 0, "unknown"⟩ :=
  C5_unknown_on_bad_input ⟨16, none, "counter"⟩ [⟨5, some "fridge"⟩] 1000 rfl

/-- C8: the stress returned by `computeStatus` is non-negative on every
input: a segment contributes only when its elapsed duration is strictly
positive, so clock skew or out-of-order data never produce a negative
total. -/
theorem C8_stress_nonneg (f : Ferment) (evs : List MoveEvent) (now : ℚ) :
    0 ≤ (calculateFermentStatus f evs now).stress :=
  stress_nonneg_aux f evs now

/-- C3: the label boundaries of the classifier are half-open on every finite
ratio: `ratio < 0.7` is `happy`, `0.7 ≤ ratio < 1.0` is `due_soon` (so
exactly `0.7` is `due_soon`), and `1.0 ≤ ratio` is `needs_feed` (so exactly
`1.0` is `needs_feed`). -/
theorem C3_classifier_boundaries (r : ℚ) :
    (r < 7/10 → classifyRatio (some r) = "happy") ∧
    (7/10 ≤ r → r < 1 → classifyRatio (some r) = "due_soon") ∧
    (1 ≤ r → classifyRatio (some r) = "needs_feed") := by
  refine ⟨fun h => ?_, fun h1 h2 => ?_, fun h => ?_⟩
  · simp [classifyRatio, h]
  · simp [classifyRatio, not_lt.mpr h1, h2]
  · have h7 : ¬ r < 7/10 := not_lt.mpr (le_trans (by norm_num) h)
    simp [classifyRatio, h7, not_lt.mpr h]

theorem C3_classifier_boundaries_witness :
    classifyRatio (some (69/100)) = "happy" ∧
    classifyRatio (some (7/10)) = "due_soon" ∧
    classifyRatio (some 1) = "needs_feed" :=
  ⟨(C3_classifier_boundaries (69/100)).1 (by norm_num),
   (C3_classifier_boundaries (7/10)).2.1 (by norm_num) (by norm_num),
   (C3_classifier_boundaries 1).2.2 (by norm_num)⟩

/-- C2: with `baseFeedIntervalHours = 16`, a parseable `lastFedAt = T0`,
storage in the fridge, no events and `now = T0 + 48h`, the result is
`stress = 48 * (1/3) = 16`, `ratio = 1.0`, label `needs_feed`. -/
theorem C2_fridge_scenario (t0 : ℚ) :
    calculateFermentStatus ⟨16, some t0, "fridge"⟩ [] (t0 + 48 * 3600000) =
      ⟨16, some 1, "needs_feed"⟩ := by
  have h48 : (t0 + 48 * 3600000 - t0) / 3600000 = 48 := by ring
  unfold calculateFermentStatus
  simp only [List.insertionSort, List.foldl_nil, h48]
  norm_num [classifyRatio, locationMultiplier]

/-- C9: with a parseable `lastFedAt`, a positive base interval and no
events, a reference time strictly before the last feed is silently clamped:
the result is `stress = 0`, `ratio = 0`, label `happy` (not `unknown`). -/
theorem C9_early_reference_clamped (base t0 : ℚ) (loc : String) (now : ℚ)
    (hbase : 0 < base) (hnow : now < t0) :
    calculateFermentStatus ⟨base, some t0, loc⟩ [] now = ⟨0, some 0, "happy"⟩ := by
  have hneg : ¬ 0 < (now - t0) / 3600000 := by
    rw [not_lt]
    exact le_of_lt (div_neg_of_neg_of_pos (by linarith) (by norm_num))
  unfold calculateFermentStatus
  simp only [List.insertionSort, List.foldl_nil, hneg, if_false]
  norm_num [classifyRatio, hbase.ne']

theorem C9_early_reference_clamped_witness :
    (0 : ℚ) < 16 ∧ (0 : ℚ) < 3600000 ∧
    calculateFermentStatus ⟨16, some 3600000, "counter"⟩ [] 0 = ⟨0, some 0, "happy"⟩ :=
  ⟨by norm_num, by norm_num,
    C9_early_reference_clamped 16 3600000 "counter" 0 (by norm_num) (by norm_num)⟩

/-- C4 as stated is false: a record with a parseable `lastFedAt` and a
*negative* base interval does not yield `unknown` — the ratio
`stress / baseInterval` is then a finite (non-positive) number, so the
classifier returns `happy`.  Concretely, base interval `-16`, last fed at
`0`, on the counter, no events, `now = 16h` yields label `happy`. -/
theorem C4_degenerate_base_counterexample :
    (calculateFermentStatus ⟨-16, some 0, "counter"⟩ [] (16 * 3600000)).label = "happy" ∧
    "happy" ≠ "unknown" := by
  constructor
  · norm_num [calculateFermentStatus, List.insertionSort, classifyRatio, locationMultiplier]
  · decide

/-- C4 amended: with a parseable `lastFedAt`, a *zero* base interval yields
the `unknown` label (non-finite ratio), while a *negative* base interval
yields a finite non-positive ratio and hence the `happy` label. -/
theorem C4_degenerate_base_amended (f : Ferment) (evs : List MoveEvent) (now t0 : ℚ)
    (h : f.last_fed_at = some t0) :
    (f.base_feed_interval_hours = 0 →
      (calculateFermentStatus f evs now).label = "unknown") ∧
    (f.base_feed_interval_hours < 0 →
      (calculateFermentStatus f evs now).label = "happy") := by
  constructor
  · intro hb
    rw [calculateFermentStatus_label_some evs now h,
        calculateFermentStatus_ratio_some evs now h, if_pos hb]
    rfl
  · intro hb
    have hs : 0 ≤ (calculateFermentStatus f evs now).stress := stress_nonneg_aux f evs now
    rw [calculateFermentStatus_label_some evs now h,
        calculateFermentStatus_ratio_some evs now h, if_neg (ne_of_lt hb)]
    have hq : (calculateFermentStatus f evs now).stress / f.base_feed_interval_hours ≤ 0 :=
      div_nonpos_iff.mpr (Or.inl ⟨hs, le_of_lt hb⟩)
    simp only [classifyRatio]
    rw [if_pos (by linarith : (calculateFermentStatus f evs now).stress /
      f.base_feed_interval_hours < 7/10)]

theorem C4_degenerate_base_amended_witness :
    (calculateFermentStatus ⟨0, some 0, "counter"⟩ [] 3600000).label = "unknown" ∧
    (calculateFermentStatus ⟨-16, some 0, "counter"⟩ [] 3600000).label = "happy" :=
  ⟨(C4_degenerate_base_amended ⟨0, some 0, "counter"⟩ [] 3600000 0 rfl).1 rfl,
   (C4_degenerate_base_amended ⟨-16, some 0, "counter"⟩ [] 3600000 0 rfl).2 (by norm_num)⟩

/-- C6: for a record with a parseable `lastFedAt`, prepending any number of
events dated at or before `lastFedAt` to the event list leaves the whole
result of `computeStatus` unchanged. -/
theorem C6_stale_prepend_noop (f : Ferment) (pre evs : List MoveEvent) (now t0 : ℚ)
    (h : f.last_fed_at = some t0) (hpre : ∀ e ∈ pre, e.created_at ≤ t0) :
    calculateFermentStatus f (pre ++ evs) now = calculateFermentStatus f evs now := by
  have hfold := foldl_sort_append_stale pre evs ⟨t0, f.storage_location, 0⟩ hpre
  unfold calculateFermentStatus
  rw [h]
  simp only [hfold]

theorem C6_stale_prepend_noop_witness :
    calculateFermentStatus ⟨16, some 7200000, "counter"⟩
        ([⟨0, some "fridge"⟩, ⟨7200000, some "fridge"⟩] ++ [⟨10800000, some "fridge"⟩])
        14400000 =
      calculateFermentStatus ⟨16, some 7200000, "counter"⟩
        [⟨10800000, some "fridge"⟩] 14400000 :=
  C6_stale_prepend_noop ⟨16, some 7200000, "counter"⟩
    [⟨0, some "fridge"⟩, ⟨7200000, some "fridge"⟩] [⟨10800000, some "fridge"⟩]
    14400000 7200000 rfl (by
      intro e he
      simp only [List.mem_cons, List.not_mem_nil, or_false] at he
      rcases he with rfl | rfl <;> norm_num)

/-- C7: holding the record and the event list fixed, the stress returned by
`computeStatus` is monotone non-decreasing in the reference time. -/
theorem C7_stress_monotone (f : Ferment) (evs : List MoveEvent) (now1 now2 : ℚ)
    (h : now1 ≤ now2) :
    (calculateFermentStatus f evs now1).stress ≤
      (calculateFermentStatus f evs now2).stress := by
  cases hL : f.last_fed_at with
  | none =>
    rw [calculateFermentStatus_none evs now1 hL, calculateFermentStatus_none evs now2 hL]
  | some t0 =>
    rw [calculateFermentStatus_stress_some evs now1 hL,
        calculateFermentStatus_stress_some evs now2 hL]
    set S := (List.insertionSort eventLE evs).foldl processEvent
      ⟨t0, f.storage_location, 0⟩ with hS
    have hm := locationMultiplier_pos S.currentLocation
    have hd12 : (now1 - S.cursor) / 3600000 ≤ (now2 - S.cursor) / 3600000 :=
      (div_le_div_iff_of_pos_right (by norm_num)).mpr (by linarith)
    by_cases h1 : 0 < (now1 - S.cursor) / 3600000 <;>
      by_cases h2 : 0 < (now2 - S.cursor) / 3600000
    · rw [if_pos h1, if_pos h2]
      have := mul_le_mul_of_nonneg_right hd12 hm.le
      linarith
    · exact absurd (lt_of_lt_of_le h1 hd12) h2
    · rw [if_neg h1, if_pos h2]
      have := mul_pos h2 hm
      linarith
    · rw [if_neg h1, if_neg h2]

theorem C7_stress_monotone_witness :
    (calculateFermentStatus ⟨16, some 0, "counter"⟩ [] 3600000).stress ≤
      (calculateFermentStatus ⟨16, some 0, "counter"⟩ [] 7200000).stress :=
  C7_stress_monotone ⟨16, some 0, "counter"⟩ [] 3600000 7200000 (by norm_num)

/-- C1 as stated is false in two ways.  With one null-location event dated
*after* the reference time, the segment up to the event is integrated in
full, so the stress (2 hours) exceeds `hoursBetween(lastFedAt, now) *
speedMultiplier` (1 hour).  With a reference time *before* `lastFedAt`,
the stress is clamped to `0` while `hoursBetween` is negative. -/
theorem C1_single_location_counterexample :
    (calculateFermentStatus ⟨16, some 0, "counter"⟩ [⟨7200000, none⟩] 3600000).stress ≠
      hoursBetween 0 3600000 * locationMultiplier "counter" ∧
    (calculateFermentStatus ⟨16, some 3600000, "counter"⟩ [] 0).stress ≠
      hoursBetween 3600000 0 * locationMultiplier "counter" := by
  constructor
  · norm_num [calculateFermentStatus, List.insertionSort, processEvent, hoursBetween,
      locationMultiplier]
  · norm_num [calculateFermentStatus, List.insertionSort, hoursBetween, locationMultiplier]

/-- C1 amended: for a record with parseable `lastFedAt` whose events all
carry a null `newLocation`, *and whose events are all dated at or before the
reference time, with `lastFedAt ≤ now`*, the stress equals
`hoursBetween(lastFedAt, now) * speedMultiplier(initialLocation)` exactly
(for an empty event list the side conditions on events hold vacuously). -/
theorem C1_single_location_amended (f : Ferment) (t0 : ℚ) (evs : List MoveEvent)
    (now : ℚ) (hparse : f.last_fed_at = some t0)
    (hnull : ∀ e ∈ evs, e.new_storage_location = none)
    (hle : ∀ e ∈ evs, e.created_at ≤ now)
    (h0 : t0 ≤ now) :
    (calculateFermentStatus f evs now).stress =
      hoursBetween t0 now * locationMultiplier f.storage_location := by
  rw [calculateFermentStatus_stress_some evs now hparse]
  obtain ⟨hloc, hcur, hmem, hstr⟩ :=
    foldl_null_events (List.insertionSort eventLE evs) ⟨t0, f.storage_location, 0⟩
      (fun e he => hnull e (by simpa using he))
  set S := (List.insertionSort eventLE evs).foldl processEvent
    ⟨t0, f.storage_location, 0⟩ with hS
  dsimp only at hloc hcur hmem hstr
  have hSnow : S.cursor ≤ now := by
    rcases hmem with hmem | ⟨e, he, heq⟩
    · rw [hmem]; exact h0
    · rw [heq]; exact hle e (by simpa using he)
  rw [hloc, hstr]
  unfold hoursBetween
  by_cases hif : 0 < (now - S.cursor) / 3600000
  · rw [if_pos hif]
    ring
  · rw [if_neg hif]
    have hge : 0 ≤ (now - S.cursor) / 3600000 :=
      div_nonneg (by linarith) (by norm_num)
    have hz : (now - S.cursor) / 3600000 = 0 := le_antisymm (not_lt.mp hif) hge
    have hnc : now = S.cursor := by
      rcases div_eq_zero_iff.mp hz with h | h
      · linarith
      · norm_num at h
    rw [hnc]
    ring

theorem C1_single_location_amended_witness :
    (calculateFermentStatus ⟨16, some 0, "fridge"⟩ [⟨3600000, none⟩] 7200000).stress =
      hoursBetween 0 7200000 * locationMultiplier "fridge" :=
  C1_single_location_amended ⟨16, some 0, "fridge"⟩ 0 [⟨3600000, none⟩] 7200000 rfl
    (by intro e he; simp only [List.mem_cons, List.not_mem_nil, or_false] at he; rw [he])
    (by
      intro e he
      simp only [List.mem_cons, List.not_mem_nil, or_false] at he
      rw [he]
      norm_num)
    (by norm_num)

/-- C10: an event dated strictly after the reference time is still
integrated in full — the segment from the cursor to the event is added at
the current location's multiplier regardless of `now`, and the final
cursor-to-now segment is dropped because it is non-positive; hence when
`lastFedAt < now` the stress strictly exceeds the now-clamped amount. -/
theorem C10_event_after_now_integrated (base t0 : ℚ) (loc : String) (te : ℚ)
    (nl : Option String) (now : ℚ) (h1 : t0 < te) (h2 : now < te) :
    (calculateFermentStatus ⟨base, some t0, loc⟩ [⟨te, nl⟩] now).stress =
      hoursBetween t0 te * locationMultiplier loc ∧
    (t0 < now →
      hoursBetween t0 now * locationMultiplier loc <
        (calculateFermentStatus ⟨base, some t0, loc⟩ [⟨te, nl⟩] now).stress) := by
  have hstress : (calculateFermentStatus ⟨base, some t0, loc⟩ [⟨te, nl⟩] now).stress =
      (te - t0) / 3600000 * locationMultiplier loc := by
    rw [calculateFermentStatus_stress_some [⟨te, nl⟩] now rfl]
    simp only [List.insertionSort, List.orderedInsert, List.foldl_cons, List.foldl_nil]
    rw [@processEvent_step ⟨t0, loc, 0⟩ ⟨te, nl⟩ h1]
    dsimp only
    have hneg : (now - te) / 3600000 < 0 := div_neg_of_neg_of_pos (by linarith) (by norm_num)
    rw [if_neg (not_lt.mpr hneg.le)]
    ring
  refine ⟨by rw [hstress]; rfl, fun h3 => ?_⟩
  rw [hstress]
  unfold hoursBetween
  exact mul_lt_mul_of_pos_right
    ((div_lt_div_iff_of_pos_right (by norm_num)).mpr (by linarith))
    (locationMultiplier_pos loc)

theorem C10_event_after_now_integrated_witness :
    (calculateFermentStatus ⟨16, some 0, "counter"⟩
        [⟨7200000, some "fridge"⟩] 3600000).stress =
      hoursBetween 0 7200000 * locationMultiplier "counter" ∧
    hoursBetween 0 3600000 * locationMultiplier "counter" <
      (calculateFermentStatus ⟨16, some 0, "counter"⟩
        [⟨7200000, some "fridge"⟩] 3600000).stress :=
  ⟨(C10_event_after_now_integrated 16 0 "counter" 7200000 (some "fridge") 3600000
      (by norm_num) (by norm_num)).1,
   (C10_event_after_now_integrated 16 0 "counter" 7200000 (some "fridge") 3600000
      (by norm_num) (by norm_num)).2 (by norm_num)⟩
